import Mathlib

/-!
Verification of `src/mlfinlab/portfolio_optimization/hrp.py` (Hierarchical Risk Parity).

The Python file is embedded shallowly: numpy float arrays become functions `Nat → ℚ`
or `List ℚ` (exact rational arithmetic stands in for IEEE doubles; where the float
code would produce `inf`/`NaN` from a division by zero this is noted at the
definition), index lists become `List Nat`, and the mutable `self.weights` buffer
becomes explicit state passing.  Fallible stages return `Except`/`Option`.
-/

namespace HRPVerify

/-! ### numpy primitives used by the source -/

/-- `np.ones(shape)` for a *list*-valued `shape` builds an array whose element count is
the product of the entries of `shape` (hrp.py:156 passes the ordered index list itself,
not its length, as the shape).  We model the flattened (row-major) element list; every
element is `1.0`. -/
def npOnes (shape : List Nat) : List ℚ :=
  List.replicate shape.prod 1

/-- `dict(zip(assets, weights))` (hrp.py:179): Python's `zip` truncates to the shorter
argument, so assets beyond the length of the weight buffer silently get no entry. -/
def dictZip (assets : List String) (w : List ℚ) : List (String × ℚ) :=
  assets.zip w

/-- `np.where(side_weights == v)` (hrp.py:121-122): the positions at which the side
vector holds `v`.  numpy returns these positions wrapped in a 1-tuple of arrays; see
`npWhereTuple`. -/
def npWhere (s : List Int) (v : Int) : List Nat :=
  (s.enum.filter (fun p => p.snd == v)).map Prod.fst

/-- `np.where` returns a *tuple* holding one index array per dimension; for the
one-dimensional side vector this is a 1-tuple.  `len(short_ptf)` at hrp.py:123 is the
length of this tuple (always 1), not the number of selected assets. -/
def npWhereTuple (s : List Int) (v : Int) : List (List Nat) :=
  [npWhere s v]

/-- Fancy-indexed in-place update `w[idx] = f(w[idx])`: every position listed in `idx`
is rewritten through `f`, all other positions are untouched. -/
def applyAt (w : List ℚ) (idx : List Nat) (f : ℚ → ℚ) : List ℚ :=
  w.mapIdx (fun i x => if i ∈ idx then f x else x)

/-- `np.sum(w[idx])`: sum of the entries of `w` selected by the index list. -/
def selSum (w : List ℚ) (idx : List Nat) : ℚ :=
  (idx.map (fun i => w.getD i 0)).sum

/-! ### Distance derivation (hrp.py:74-77)

`distance_matrix = np.sqrt((1 - correlation_matrix).round(5) / 2)` is entrywise; we
embed the map applied to a single correlation entry.  `np.round` rounds half to even. -/

/-- Round-half-to-even to the nearest integer, as `np.round` does. -/
def roundHalfEven (x : ℚ) : ℤ :=
  let f := ⌊x⌋
  let r := x - (f : ℚ)
  if r < 1/2 then f
  else if 1/2 < r then f + 1
  else if f % 2 = 0 then f else f + 1

/-- `.round(5)`: round to 5 decimal digits (half to even), as at hrp.py:77. -/
def round5 (x : ℚ) : ℚ :=
  (roundHalfEven (x * 100000) : ℚ) / 100000

/-- The radicand of the distance entry at hrp.py:77: `(1 - c).round(5) / 2` for a
correlation entry `c`.  The entry itself is `np.sqrt` of this; `np.sqrt` of a negative
radicand is `NaN`, and on `[0, 1]` it lands in `[0, 1]`. -/
def distRadicand (c : ℚ) : ℚ :=
  round5 (1 - c) / 2

/-- The spec's formula for the same entry (spec §4.1): the rounded `(1 - c)` term is
clamped to `[0, 2]` before halving.  Named separately so it can be compared with the
source's `distRadicand`, which has no clamp. -/
def distRadicandClamped (c : ℚ) : ℚ :=
  min 2 (max 0 (round5 (1 - c))) / 2

/-! ### Cluster variance and allocation factor (hrp.py:134-147, 165-172)

`_get_cluster_variance` binds `cluster_covariance` at line 143 and then reads the
name `cov_slice` at lines 145 and 147.  `cov_slice` is bound nowhere — not among the
locals (`self`, `covariance_matrix`, `cluster_items`, `cluster_covariance`) and not at
module level — so every call raises `NameError: name 'cov_slice' is not defined`
before any arithmetic happens.  Two embeddings follow: `getClusterVarianceRun` is the
function as it executes (the error path), and `getClusterVariance` is the arithmetic
lines 143-147 describe, taking `cov_slice` for the line-143 matrix.  The worklist
embedding below plugs the latter in as the factor value; the structural statements
proved about the worklist (how ranges split, termination, weights outside a pair
untouched) do not depend on which value it returns. -/

/-- A Python runtime error raised by the source. -/
inductive PyError where
  | nameError (name : String)
  deriving DecidableEq

/-- `_get_cluster_variance(covariance_matrix, cluster_items)` as it executes
(hrp.py:134-147): line 143 binds `cluster_covariance` to the sliced covariance, then
line 145 (`w = 1 / np.diag(cov_slice)`) reads the undefined name `cov_slice` and the
call raises `NameError` for every input, computing no variance. -/
def getClusterVarianceRun (cov : Nat → Nat → ℚ) (c : List Nat) : Except PyError ℚ :=
  let _cluster_covariance := fun p q => cov (c.getD p 0) (c.getD q 0)
  .error (.nameError "cov_slice")

/-- The arithmetic hrp.py:143-147 describes (never reached in a run, see
`getClusterVarianceRun`): slice the covariance at the cluster's indices, take
inverse-variance weights `w = 1/diag`, normalise them to sum to 1, and evaluate the
quadratic form `wᵗ·C·w` via `np.linalg.multi_dot`.  In the float code `1/0` is `inf`
and `0/0` is `NaN`; in this rational embedding `x / 0 = 0`. -/
def getClusterVariance (cov : Nat → Nat → ℚ) (c : List Nat) : ℚ :=
  let w := c.map (fun i => 1 / cov i i)
  let s := w.sum
  let wn := w.map (fun x => x / s)
  ((c.zip wn).map (fun p => ((c.zip wn).map (fun q => p.snd * cov p.fst q.fst * q.snd)).sum)).sum

/-- `alloc_factor = 1 - left_cluster_variance / (left_cluster_variance +
right_cluster_variance)` (hrp.py:172) over the described arithmetic.  Line 172 is
unconditional — there is no special case for a zero denominator (the float code would
evaluate `0/0 = NaN`; here `x / 0 = 0`, so this transliteration degenerates to `1`) —
and in a program run it is never even reached, see `allocFactorRun`. -/
def allocFactorQ (cov : Nat → Nat → ℚ) (l r : List Nat) : ℚ :=
  1 - getClusterVariance cov l / (getClusterVariance cov l + getClusterVariance cov r)

/-- Lines hrp.py:170-172 as they execute: the two `_get_cluster_variance` calls run
first and the first one raises, so `alloc_factor` is never assigned and the division
at line 172 never runs. -/
def allocFactorRun (cov : Nat → Nat → ℚ) (l r : List Nat) : Except PyError ℚ := do
  let leftVar ← getClusterVarianceRun cov l
  let rightVar ← getClusterVarianceRun cov r
  pure (1 - leftVar / (leftVar + rightVar))

/-! ### Recursive bisection worklist (hrp.py:156-176) -/

/-- The worklist rebuild at hrp.py:160-163: each cluster of length `> 1` is replaced by
its two contiguous halves `[0, L//2)` and `[L//2, L)`; clusters of length `≤ 1` are
dropped by the comprehension's filter. -/
def splitClusters (cs : List (List Nat)) : List (List Nat) :=
  cs.flatMap (fun c => if 1 < c.length then [c.take (c.length / 2), c.drop (c.length / 2)] else [])

/-- `self.weights[cluster] *= factor` (hrp.py:175-176): multiply the weights of the
assets listed in `cluster` by `factor`. -/
def applyFactor (w : Nat → ℚ) (cluster : List Nat) (factor : ℚ) : Nat → ℚ :=
  fun i => if i ∈ cluster then factor * w i else w i

/-- The pair loop at hrp.py:165-176: consecutive pairs `(left, right)` of the rebuilt
worklist get the allocation factor applied, left multiplied by `α`, right by `1 - α`.
The rebuilt list always has even length (each parent contributes 0 or 2 children), so
the trailing one-element case is unreachable from the loop. -/
def processPairs (cov : Nat → Nat → ℚ) : (Nat → ℚ) → List (List Nat) → (Nat → ℚ)
  | w, l :: r :: rest =>
      processPairs cov
        (applyFactor (applyFactor w l (allocFactorQ cov l r)) r (1 - allocFactorQ cov l r)) rest
  | w, _ => w

/-- Largest cluster length in the worklist. -/
def maxClusterLen (cs : List (List Nat)) : Nat :=
  (cs.map List.length).foldr max 0

/-- The `while clustered_alphas:` loop (hrp.py:159-176), with an explicit fuel
parameter so that its termination is a provable statement: each iteration first
rebuilds the worklist (`splitClusters`), then applies the pair factors, and stops once
the worklist is empty.  `none` means the fuel ran out before the loop finished. -/
def bisectionLoop (cov : Nat → Nat → ℚ) : Nat → (Nat → ℚ) → List (List Nat) → Option (Nat → ℚ)
  | _, w, [] => some w
  | 0, _, _ :: _ => none
  | n + 1, w, c :: cs =>
      let cs2 := splitClusters (c :: cs)
      bisectionLoop cov n (processPairs cov w cs2) cs2

/-! ### Long/short adjustment (hrp.py:106-133) -/

/-- `_build_long_short_portfolio(self, side_weights)` (hrp.py:106-112) — the method
`allocate` actually invokes at hrp.py:93.  Its body consists only of its docstring, so
the held weights are left exactly as they were. -/
def buildLongShortPortfolioMember (weights : List ℚ) (_sideWeights : List Int) : List ℚ :=
  weights

/-- `build_long_short_portfolio(weights, side_weights)` (hrp.py:114-133), the separate
function that does rescale.  `short_ptf` and `buy_ptf` are the 1-tuples returned by
`np.where`, so the guard `len(short_ptf) > 0` at line 123 compares the tuple length
(always 1) and is always taken; numpy indexing with the 1-tuple selects by its single
member array (the `.flatten`).  An empty selection makes each update a no-op over no
elements (no division is performed on any element). -/
def buildLongShortPortfolio (weights : List ℚ) (sideWeights : List Int) : List ℚ :=
  let shortPtf := npWhereTuple sideWeights (-1)
  let buyPtf := npWhereTuple sideWeights 1
  if 0 < shortPtf.length then
    let si := shortPtf.flatten
    let bi := buyPtf.flatten
    let w1 := applyAt weights si (fun x => x / selSum weights si)
    let w2 := applyAt w1 si (fun x => x * (-(1/2)))
    let w3 := applyAt w2 bi (fun x => x / selSum w2 bi)
    applyAt w3 bi (fun x => x * (1/2))
  else weights

/-! ### Input validation and the `allocate` skeleton (hrp.py:31-93) -/

/-- The error raised for unusable input, per spec §7. -/
inductive HrpError where
  | invalidInput
  deriving DecidableEq

/-- The inputs of one `allocate` call (hrp.py:31-38); matrices are row lists, rows
indexed by asset as the source uses them (`np.diff(asset_prices)` and
`np.cov(asset_returns)` both treat rows as assets). -/
structure AllocInputs where
  assetNames : List String
  assetPrices : Option (List (List ℚ))
  assetReturns : Option (List (List ℚ))
  covarianceMatrix : Option (List (List ℚ))
  distanceMatrix : Option (List (List ℚ))

/-- A supplied matrix whose dimensions disagree with the asset count `n`: a price or
return matrix must have one row per asset; a covariance matrix must be `n × n`. -/
def dimsMismatch (n : Nat) (prices rets cov : Option (List (List ℚ))) : Bool :=
  (match prices with | some m => m.length != n | none => false)
  || (match rets with | some m => m.length != n | none => false)
  || (match cov with
      | some m => m.length != n || m.any (fun row => row.length != n)
      | none => false)

/-- Modelled from the spec: `_error_checks(asset_prices, asset_returns,
covariance_matrix)` is invoked at hrp.py:55 but its body is absent from `src/`.  Per
spec §6 at least one of prices, returns, covariance must be supplied — exactly the
three arguments the source call passes — and a supplied matrix must agree with the
asset count (spec §4.1/§7); otherwise `InvalidInputError` is raised. -/
def errorChecks (n : Nat) (prices rets cov : Option (List (List ℚ))) :
    Except HrpError Unit :=
  if prices.isNone && rets.isNone && cov.isNone then .error .invalidInput
  else if dimsMismatch n prices rets cov then .error .invalidInput
  else .ok ()

/-- The control skeleton of `allocate` (hrp.py:54-93): `_error_checks` runs first, and
a raise aborts the call before any weight computation, so no weight vector is produced
on failure.  The remainder of the pipeline is abstracted as `rest` — whatever it
computes is only reached when the checks pass. -/
def allocateModel (inp : AllocInputs) (rest : AllocInputs → List (String × ℚ)) :
    Except HrpError (List (String × ℚ)) :=
  match errorChecks inp.assetNames.length inp.assetPrices inp.assetReturns
      inp.covarianceMatrix with
  | .error e => .error e
  | .ok _ => .ok (rest inp)

/-! ### Merge tree and quasi-diagonalisation (hrp.py:82-84)

Modelled from the spec: the merge tree is built and traversed by the external scipy
primitives `to_tree(...).pre_order()`; spec §4.3 and §9 fix their contract — a binary
tree over the `N` assets, traversed depth-first, left child before right child,
emitting each leaf's original asset index exactly once. -/

/-- Modelled from the spec: a binary merge tree; leaves carry original asset indices
(spec §3 "Merge tree"). -/
inductive MergeTree where
  | leaf : Nat → MergeTree
  | node : MergeTree → MergeTree → MergeTree
  deriving DecidableEq

/-- Modelled from the spec: depth-first, left-then-right traversal emitting each leaf's
original asset index (spec §4.3, scipy's `pre_order` at hrp.py:84). -/
def preOrder : MergeTree → List Nat
  | .leaf i => [i]
  | .node l r => preOrder l ++ preOrder r

/-- The multiset of leaf labels of a merge tree, defined by its own recursion (not via
the traversal) so that statements about `preOrder` are not circular. -/
def leafLabels : MergeTree → Multiset Nat
  | .leaf i => {i}
  | .node l r => leafLabels l + leafLabels r

/-! ### Concrete instances used as inputs of witnesses and counterexamples -/

/-- A positive-semidefinite covariance over four assets: indices `0,1` and `2,3` form
two perfectly anti-correlated unit-variance pairs, so each pair's inverse-variance
portfolio has variance exactly `0`. -/
def covBlockNeg : Nat → Nat → ℚ :=
  fun i j => if i = j then 1 else if i / 2 = j / 2 then -1 else 0

/-- A diagonal covariance with variance `i + 1` for asset `i`. -/
def covDiag : Nat → Nat → ℚ :=
  fun i j => if i = j then (i + 1 : ℚ) else 0

/-- The all-ones weight vector. -/
def wOne : Nat → ℚ := fun _ => 1

/-- A concrete merge tree over 3 assets. -/
def exTree : MergeTree := .node (.leaf 1) (.node (.leaf 0) (.leaf 2))

/-- An `allocate` input supplying only asset prices. -/
def inpPricesOnly : AllocInputs := ⟨["A"], some [[1, 2]], none, none, none⟩

/-- An `allocate` input supplying no data source at all. -/
def inpEmpty : AllocInputs := ⟨[], none, none, none, none⟩

/-! ### Helper lemmas -/

lemma floor_le_of_le_int {x : ℚ} {B : ℤ} (h : x ≤ (B : ℚ)) : ⌊x⌋ ≤ B := by
  have := Int.floor_le_floor h
  simpa using this

lemma roundHalfEven_ge_floor (x : ℚ) : ⌊x⌋ ≤ roundHalfEven x := by
  unfold roundHalfEven
  dsimp only
  split_ifs <;> omega

lemma roundHalfEven_le {x : ℚ} {B : ℤ} (h : x ≤ (B : ℚ)) : roundHalfEven x ≤ B := by
  unfold roundHalfEven
  dsimp only
  have hfB : ⌊x⌋ ≤ B := floor_le_of_le_int h
  have hfx : (⌊x⌋ : ℚ) ≤ x := Int.floor_le x
  split_ifs with h1 h2 h3
  · exact hfB
  · have hhalf : (⌊x⌋ : ℚ) + 1/2 ≤ x := by linarith [not_lt.mp h1]
    have : (⌊x⌋ : ℚ) < (B : ℚ) := by linarith
    have : ⌊x⌋ < B := by exact_mod_cast this
    omega
  · exact hfB
  · have hhalf : (⌊x⌋ : ℚ) + 1/2 ≤ x := by linarith [not_lt.mp h1]
    have : (⌊x⌋ : ℚ) < (B : ℚ) := by linarith
    have : ⌊x⌋ < B := by exact_mod_cast this
    omega

lemma le_roundHalfEven {x : ℚ} {A : ℤ} (h : (A : ℚ) ≤ x) : A ≤ roundHalfEven x := by
  have h1 : A ≤ ⌊x⌋ := Int.le_floor.mpr h
  have h2 := roundHalfEven_ge_floor x
  omega

lemma round5_nonneg {x : ℚ} (h : 0 ≤ x) : 0 ≤ round5 x := by
  unfold round5
  have h0 : (0 : ℤ) ≤ roundHalfEven (x * 100000) := by
    apply le_roundHalfEven
    push_cast
    positivity
  have : (0 : ℚ) ≤ (roundHalfEven (x * 100000) : ℚ) := by exact_mod_cast h0
  positivity

lemma round5_le_two {x : ℚ} (h : x ≤ 2) : round5 x ≤ 2 := by
  unfold round5
  have h0 : roundHalfEven (x * 100000) ≤ (200000 : ℤ) := by
    apply roundHalfEven_le
    push_cast
    linarith
  have : (roundHalfEven (x * 100000) : ℚ) ≤ 200000 := by exact_mod_cast h0
  linarith

lemma zip_self_map {α β : Type} (l : List α) (h : α → β) :
    l.zip (l.map h) = l.map (fun a => (a, h a)) := by
  induction l with
  | nil => rfl
  | cons a t ih => simp [ih]

lemma sum_map_mul_const (l : List Nat) (f : Nat → ℚ) (b : ℚ) :
    (l.map (fun x => f x * b)).sum = (l.map f).sum * b := by
  induction l with
  | nil => simp
  | cons a t ih => simp [ih, add_mul]

lemma length_le_maxClusterLen {c : List Nat} {cs : List (List Nat)} (h : c ∈ cs) :
    c.length ≤ maxClusterLen cs := by
  induction cs with
  | nil => cases h
  | cons a t ih =>
    rcases List.mem_cons.mp h with rfl | hmem
    · exact le_max_left _ _
    · exact (ih hmem).trans (le_max_right _ _)

lemma maxClusterLen_le {cs : List (List Nat)} {k : Nat} (h : ∀ c ∈ cs, c.length ≤ k) :
    maxClusterLen cs ≤ k := by
  induction cs with
  | nil => exact Nat.zero_le k
  | cons a t ih =>
    have ha : a.length ≤ k := h a (List.mem_cons_self a t)
    have ht : maxClusterLen t ≤ k := ih (fun c hc => h c (List.mem_cons_of_mem a hc))
    exact max_le ha ht

lemma mem_splitClusters {d : List Nat} {cs : List (List Nat)} (h : d ∈ splitClusters cs) :
    ∃ c ∈ cs, 1 < c.length ∧
      (d = c.take (c.length / 2) ∨ d = c.drop (c.length / 2)) := by
  unfold splitClusters at h
  obtain ⟨c, hc, hd⟩ := List.mem_flatMap.mp h
  by_cases h1 : 1 < c.length
  · rw [if_pos h1] at hd
    simp only [List.mem_cons, List.mem_singleton, List.not_mem_nil, or_false] at hd
    exact ⟨c, hc, h1, hd⟩
  · rw [if_neg h1] at hd
    cases hd

lemma splitClusters_eq_nil {cs : List (List Nat)} (h : maxClusterLen cs ≤ 1) :
    splitClusters cs = [] := by
  apply List.eq_nil_iff_forall_not_mem.mpr
  intro d hd
  obtain ⟨c, hc, h1, _⟩ := mem_splitClusters hd
  have := length_le_maxClusterLen hc
  omega

lemma maxClusterLen_split_lt {cs : List (List Nat)} (h : 1 < maxClusterLen cs) :
    maxClusterLen (splitClusters cs) < maxClusterLen cs := by
  have hle : maxClusterLen (splitClusters cs) ≤ maxClusterLen cs - 1 := by
    apply maxClusterLen_le
    intro d hd
    obtain ⟨c, hc, h1, hdd⟩ := mem_splitClusters hd
    have hcle := length_le_maxClusterLen hc
    rcases hdd with rfl | rfl
    · rw [List.length_take]
      omega
    · rw [List.length_drop]
      omega
  omega

lemma bisectionLoop_isSome (cov : Nat → Nat → ℚ) :
    ∀ (n : Nat) (cs : List (List Nat)) (w : Nat → ℚ),
      (if cs = [] then 0 else maxClusterLen cs + 1) ≤ n →
      (bisectionLoop cov n w cs).isSome = true := by
  intro n
  induction n with
  | zero =>
    intro cs w h
    cases cs with
    | nil => rfl
    | cons c t => simp at h
  | succ n ih =>
    intro cs w h
    cases cs with
    | nil => rfl
    | cons c t =>
      show (bisectionLoop cov n (processPairs cov w (splitClusters (c :: t)))
        (splitClusters (c :: t))).isSome = true
      apply ih
      by_cases h2 : splitClusters (c :: t) = []
      · simp [h2]
      · rw [if_neg h2]
        have hM : 1 < maxClusterLen (c :: t) := by
          by_contra hM
          exact h2 (splitClusters_eq_nil (by omega))
        have hlt := maxClusterLen_split_lt hM
        have hn : maxClusterLen (c :: t) + 1 ≤ n + 1 := by simpa using h
        omega

lemma processPairs_eq_of_not_mem (cov : Nat → Nat → ℚ) :
    ∀ (cs : List (List Nat)) (w : Nat → ℚ) (i : Nat),
      (∀ d ∈ cs, i ∉ d) → processPairs cov w cs i = w i
  | [], _, _, _ => rfl
  | [_], _, _, _ => rfl
  | l :: r :: t, w, i, h => by
    have hl : i ∉ l := h l (by simp)
    have hr : i ∉ r := h r (by simp)
    have ht : ∀ d ∈ t, i ∉ d := fun d hd => h d (by simp [hd])
    show processPairs cov
      (applyFactor (applyFactor w l (allocFactorQ cov l r)) r (1 - allocFactorQ cov l r)) t i = w i
    rw [processPairs_eq_of_not_mem cov t _ i ht]
    simp [applyFactor, hl, hr]

lemma getClusterVariance_closed (cov : Nat → Nat → ℚ) (c : List Nat) :
    getClusterVariance cov c =
      (c.map (fun p => (c.map (fun q => cov p q / (cov p p * cov q q))).sum)).sum
        / ((c.map (fun p => 1 / cov p p)).sum) ^ 2 := by
  unfold getClusterVariance
  simp only [List.map_map, zip_self_map, Function.comp_def]
  trans ((c.map (fun p => (c.map (fun q => cov p q / (cov p p * cov q q))).sum *
      (((c.map (fun i => 1 / cov i i)).sum)⁻¹ * ((c.map (fun i => 1 / cov i i)).sum)⁻¹))).sum)
  · apply congrArg List.sum
    apply List.map_congr_left
    intro p _
    rw [← sum_map_mul_const c (fun q => cov p q / (cov p p * cov q q))
        (((c.map (fun i => 1 / cov i i)).sum)⁻¹ * ((c.map (fun i => 1 / cov i i)).sum)⁻¹)]
    apply congrArg List.sum
    apply List.map_congr_left
    intro q _
    ring
  · rw [sum_map_mul_const]
    ring

/-! ### The claims -/

/-- Claim C3 counterexample: at the very step the claim speaks about — a pair of
clusters whose inverse-variance portfolio variances (the arithmetic hrp.py:143-147
describes) sum to `0`, here two perfectly anti-correlated unit-variance pairs of
`covBlockNeg` — the program defines no allocation factor at all, and in particular not
`0.5`: the first `_get_cluster_variance` call raises `NameError` at hrp.py:145 before
the division at line 172 can run. -/
theorem claim_C3_counterexample :
    getClusterVariance covBlockNeg [0, 1] + getClusterVariance covBlockNeg [2, 3] = 0 ∧
    allocFactorRun covBlockNeg [0, 1] [2, 3] = .error (.nameError "cov_slice") ∧
    allocFactorRun covBlockNeg [0, 1] [2, 3] ≠ .ok (1 / 2) := by
  refine ⟨?_, rfl, ?_⟩
  · norm_num [getClusterVariance, covBlockNeg]
  · have h1 : allocFactorRun covBlockNeg [0, 1] [2, 3] = .error (.nameError "cov_slice") := rfl
    rw [h1]
    simp

/-- Claim C3 (amended): the source has no `α = 0.5` special case anywhere; for every
covariance and every pair of clusters — zero-variance-degenerate or not — the factor
computation of hrp.py:170-172 raises `NameError` (undefined `cov_slice`) inside the
first `_get_cluster_variance` call, so no allocation factor (in particular not `0.5`)
is ever produced, and line 172's unconditional division is never reached. -/
theorem claim_C3 (cov : Nat → Nat → ℚ) (l r : List Nat) :
    allocFactorRun cov l r = .error (.nameError "cov_slice") ∧
    allocFactorRun cov l r ≠ .ok (1 / 2) := by
  constructor
  · rfl
  · have h1 : allocFactorRun cov l r = .error (.nameError "cov_slice") := rfl
    rw [h1]
    simp

/-- Claim C4: the worklist rebuild replaces each range of length `L > 1` by exactly its
two contiguous halves `[0, L/2)` and `[L/2, L)` (integer division), whose
concatenation restores the range; for odd `L` the right half holds one element more
than the left; ranges of length 1 are dropped from the rebuilt worklist, and the pair
loop leaves the weight of any asset outside every rebuilt range unchanged. -/
theorem claim_C4 (c : List Nat) (cs : List (List Nat)) :
    (1 < c.length →
      splitClusters (c :: cs) =
        c.take (c.length / 2) :: c.drop (c.length / 2) :: splitClusters cs
      ∧ (c.take (c.length / 2)).length = c.length / 2
      ∧ (c.drop (c.length / 2)).length = c.length - c.length / 2
      ∧ c.take (c.length / 2) ++ c.drop (c.length / 2) = c)
  ∧ (1 < c.length → c.length % 2 = 1 →
      (c.drop (c.length / 2)).length = (c.take (c.length / 2)).length + 1)
  ∧ (c.length = 1 → splitClusters (c :: cs) = splitClusters cs)
  ∧ (∀ (cov : Nat → Nat → ℚ) (w : Nat → ℚ) (i : Nat),
      (∀ d ∈ splitClusters (c :: cs), i ∉ d) →
      processPairs cov w (splitClusters (c :: cs)) i = w i) := by
  refine ⟨?_, ?_, ?_, ?_⟩
  · intro h
    refine ⟨?_, ?_, List.length_drop _ _, List.take_append_drop _ c⟩
    · show (if 1 < c.length then
          [c.take (c.length / 2), c.drop (c.length / 2)] else []) ++ splitClusters cs = _
      rw [if_pos h]
      rfl
    · rw [List.length_take]
      omega
  · intro h hodd
    rw [List.length_take, List.length_drop]
    omega
  · intro h
    show (if 1 < c.length then
        [c.take (c.length / 2), c.drop (c.length / 2)] else []) ++ splitClusters cs = _
    rw [if_neg (by omega)]
    rfl
  · intro cov w i h
    exact processPairs_eq_of_not_mem cov _ w i h

/-- Witness for claim C4, applying the theorem at an odd length-3 range and at a
singleton range. -/
theorem claim_C4_witness :
    splitClusters [[5, 6, 7]] = [[5], [6, 7]] ∧
    ([5, 6, 7].drop 1).length = ([5, 6, 7].take 1).length + 1 ∧
    splitClusters [[4]] = [] ∧
    processPairs covDiag wOne (splitClusters [[5, 6, 7]]) 9 = wOne 9 := by
  refine ⟨?_, ?_, ?_, ?_⟩
  · have h := ((claim_C4 [5, 6, 7] []).1 (by decide)).1
    exact h
  · have h := (claim_C4 [5, 6, 7] []).2.1 (by decide) (by decide)
    exact h
  · have h := (claim_C4 [4] []).2.2.1 (by decide)
    exact h
  · exact (claim_C4 [5, 6, 7] []).2.2.2 covDiag wOne 9 (by decide)

/-- Claim C5: with no user-supplied distance matrix, each distance entry is derived
from the correlation entry `c` as `sqrt(round5(1 - c) / 2)` (hrp.py:77).  For any
correlation value `c ∈ [-1, 1]` this coincides with the spec's clamped formula
`sqrt(clamp(round5(1 - c), 0, 2) / 2)`, the radicand lies in `[0, 1]` (so `np.sqrt`
never sees a negative argument and never produces `NaN`), and the entry itself lies in
`[0, 1]`. -/
theorem claim_C5 (c : ℚ) (h1 : -1 ≤ c) (h2 : c ≤ 1) :
    distRadicand c = distRadicandClamped c ∧
    0 ≤ distRadicand c ∧ distRadicand c ≤ 1 ∧
    0 ≤ Real.sqrt (distRadicand c) ∧ Real.sqrt (distRadicand c) ≤ 1 := by
  have ha : (0 : ℚ) ≤ 1 - c := by linarith
  have hb : (1 : ℚ) - c ≤ 2 := by linarith
  have r0 : 0 ≤ round5 (1 - c) := round5_nonneg ha
  have r2 : round5 (1 - c) ≤ 2 := round5_le_two hb
  have hrad0 : 0 ≤ distRadicand c := by unfold distRadicand; linarith
  have hrad1 : distRadicand c ≤ 1 := by unfold distRadicand; linarith
  refine ⟨?_, hrad0, hrad1, Real.sqrt_nonneg _, ?_⟩
  · unfold distRadicand distRadicandClamped
    rw [max_eq_right r0, min_eq_right r2]
  · have hx : ((distRadicand c : ℚ) : ℝ) ≤ 1 := by exact_mod_cast hrad1
    calc Real.sqrt (distRadicand c) ≤ Real.sqrt 1 := Real.sqrt_le_sqrt hx
    _ = 1 := Real.sqrt_one

/-- Witness for claim C5 at the concrete correlation entry `1/2`. -/
theorem claim_C5_witness :
    ((-1 : ℚ) ≤ 1/2 ∧ (1/2 : ℚ) ≤ 1) ∧
    (distRadicand (1/2) = distRadicandClamped (1/2) ∧
     0 ≤ distRadicand (1/2) ∧ distRadicand (1/2) ≤ 1 ∧
     0 ≤ Real.sqrt (distRadicand (1/2)) ∧ Real.sqrt (distRadicand (1/2)) ≤ 1) :=
  ⟨⟨by norm_num, by norm_num⟩, claim_C5 (1/2) (by norm_num) (by norm_num)⟩

/-- Claim C10: the worklist loop terminates on every input: whenever the worklist
still holds a range of length `> 1`, one rebuild strictly decreases the maximum range
length, and running the loop with `maxClusterLen cs + 1` fuel always finishes (the
fuelled transliteration never returns `none`). -/
theorem claim_C10 (cov : Nat → Nat → ℚ) (w : Nat → ℚ) (cs : List (List Nat)) :
    (1 < maxClusterLen cs → maxClusterLen (splitClusters cs) < maxClusterLen cs) ∧
    (bisectionLoop cov (maxClusterLen cs + 1) w cs).isSome = true := by
  constructor
  · exact maxClusterLen_split_lt
  · apply bisectionLoop_isSome
    split <;> omega

/-- Witness for claim C10 at a concrete worklist holding one range of length 3. -/
theorem claim_C10_witness :
    maxClusterLen (splitClusters [[0, 1, 2]]) < maxClusterLen [[0, 1, 2]] ∧
    (bisectionLoop covDiag (maxClusterLen [[0, 1, 2]] + 1) wOne [[0, 1, 2]]).isSome = true :=
  ⟨(claim_C10 covDiag wOne [[0, 1, 2]]).1 (by decide),
   (claim_C10 covDiag wOne [[0, 1, 2]]).2⟩

/-- Claim C1 (code evaluated at the failing input): for a two-asset universe with
ordered indices `[0, 1]`, `self.weights = np.ones(indices, dtype=np.float64)`
(hrp.py:156) passes the index list itself as the *shape*, producing an array with
`0·1 = 0` elements; `dict(zip(assets, self.weights))` (hrp.py:179) then yields an
empty weight mapping, whose weights cannot be strictly positive and sum to `0`, not
`1`.  (The call in fact crashes even earlier: the worklist is seeded from
`self.ordered_indices`, which `allocate` never assigns, so it is still `None`.) -/
theorem claim_C1 :
    dictZip ["A", "B"] (npOnes [0, 1]) = [] ∧
    ((dictZip ["A", "B"] (npOnes [0, 1])).map Prod.snd).sum ≠ (1 : ℚ) := by
  refine ⟨rfl, ?_⟩
  norm_num [dictZip, npOnes]

/-- Claim C9 (code evaluated at the failing input): for the single-asset universe the
ordered index list is `[0]`, so `np.ones([0])` (hrp.py:156) is an empty array and the
final mapping `dict(zip(["A"], ...))` is empty — not the claimed single entry with
weight `1.0`. -/
theorem claim_C9 :
    dictZip ["A"] (npOnes [0]) = [] ∧ dictZip ["A"] (npOnes [0]) ≠ [("A", (1 : ℚ))] := by
  refine ⟨rfl, ?_⟩
  simp [dictZip, npOnes]

/-- Claim C6 (code evaluated at the failing input): the adjustment `allocate` invokes
(`_build_long_short_portfolio`, hrp.py:93 and 106-112) has an empty body and leaves
the weights unchanged, so with weights `[3/5, 2/5]` and sides `[+1, -1]` the short
side still sums to `2/5`, not `-1/2`; and the separate `build_long_short_portfolio`
(hrp.py:114-133), whose `len(short_ptf) > 0` guard tests the length of the 1-tuple
`np.where` returns and is therefore always true, rescales the present (long) side to
sum `+1/2` even when the short side is empty — not a no-op. -/
theorem claim_C6 :
    buildLongShortPortfolioMember [3/5, 2/5] [1, -1] = [3/5, 2/5] ∧
    ((npWhere [1, -1] (-1)).map
      (fun i => (buildLongShortPortfolioMember [3/5, 2/5] [1, -1]).getD i 0)).sum = 2/5 ∧
    ((2 : ℚ)/5) ≠ -(1/2) ∧
    buildLongShortPortfolio [3/5, 2/5] [1, 1] = [3/10, 1/5] ∧
    ([3/10, (1 : ℚ)/5]) ≠ [3/5, 2/5] := by
  refine ⟨rfl, ?_, by norm_num, ?_, by norm_num⟩
  · norm_num [npWhere, buildLongShortPortfolioMember, List.enum]
  · have h21 : ([3/5, (2 : ℚ)/5])[1] = 2/5 := rfl
    norm_num [buildLongShortPortfolio, npWhereTuple, npWhere, applyAt, selSum, List.enum,
      List.mapIdx_cons, h21]

/-- Claim C7 counterexample: an input supplying only `asset_prices` — so that none of
asset returns, covariance, or distance is supplied, the condition under which the
claim demands an `InvalidInputError` — passes the checks (prices are a usable source:
hrp.py:67-68 derives returns from them) and `allocate` proceeds. -/
theorem claim_C7_counterexample :
    (inpPricesOnly.assetReturns = none ∧ inpPricesOnly.covarianceMatrix = none ∧
     inpPricesOnly.distanceMatrix = none) ∧
    (allocateModel inpPricesOnly (fun _ => [("A", 1)])).isOk = true :=
  ⟨⟨rfl, rfl, rfl⟩, rfl⟩

/-- Claim C7 (amended): the checks fail with `InvalidInputError` exactly when none of
asset *prices*, asset returns, or covariance is supplied, or when a supplied matrix's
dimensions disagree with the number of asset names (the distance matrix is not
consulted: hrp.py:55 passes only prices, returns and covariance); the failure is
raised as the first step of `allocate`, before any weight computation, so no weight
vector is produced on failure, whatever the rest of the pipeline would compute. -/
theorem claim_C7 (inp : AllocInputs) (rest : AllocInputs → List (String × ℚ)) :
    (errorChecks inp.assetNames.length inp.assetPrices inp.assetReturns inp.covarianceMatrix
        = .error .invalidInput ↔
      ((inp.assetPrices = none ∧ inp.assetReturns = none ∧ inp.covarianceMatrix = none) ∨
        dimsMismatch inp.assetNames.length inp.assetPrices inp.assetReturns
          inp.covarianceMatrix = true)) ∧
    (∀ e, errorChecks inp.assetNames.length inp.assetPrices inp.assetReturns
        inp.covarianceMatrix = .error e →
      allocateModel inp rest = .error e) := by
  constructor
  · unfold errorChecks
    split_ifs with hA hB
    · simp only [Bool.and_eq_true, Option.isNone_iff_eq_none] at hA
      obtain ⟨⟨hp, hr⟩, hc⟩ := hA
      simp [hp, hr, hc]
    · simp [hB]
    · simp only [Bool.and_eq_true, Option.isNone_iff_eq_none] at hA
      constructor
      · intro h
        cases h
      · intro h
        exfalso
        rcases h with ⟨h1, h2, h3⟩ | h4
        · exact hA ⟨⟨h1, h2⟩, h3⟩
        · exact hB h4
  · intro e he
    unfold allocateModel
    rw [he]

/-- Witness for the amended claim C7 at the concrete input with no data source. -/
theorem claim_C7_witness :
    errorChecks inpEmpty.assetNames.length inpEmpty.assetPrices inpEmpty.assetReturns
      inpEmpty.covarianceMatrix = .error .invalidInput ∧
    allocateModel inpEmpty (fun _ => []) = .error HrpError.invalidInput :=
  ⟨rfl, (claim_C7 inpEmpty (fun _ => [])).2 HrpError.invalidInput rfl⟩

/-- Claim C8: the depth-first, left-then-right traversal of a merge tree emits exactly
the multiset of its leaf labels (each leaf visited once, its original index emitted),
and whenever the tree's leaves carry exactly the labels `0, …, N-1` the traversal
output has length `N` and is a permutation of `[0..N)` — no duplicates, no omissions. -/
theorem claim_C8 (t : MergeTree) (N : Nat) :
    (↑(preOrder t) : Multiset Nat) = leafLabels t ∧
    (leafLabels t = Multiset.range N →
      (preOrder t).length = N ∧ (preOrder t).Perm (List.range N)) := by
  have hcoe : (↑(preOrder t) : Multiset Nat) = leafLabels t := by
    induction t with
    | leaf i => rfl
    | node l r ihl ihr =>
      show (↑(preOrder l ++ preOrder r) : Multiset Nat) = leafLabels l + leafLabels r
      rw [← ihl, ← ihr]
      exact Multiset.coe_add _ _
  refine ⟨hcoe, fun h => ?_⟩
  have hp : (preOrder t).Perm (List.range N) := by
    apply Multiset.coe_eq_coe.mp
    rw [hcoe, h]
    rfl
  exact ⟨hp.length_eq.trans (List.length_range N), hp⟩

/-- Witness for claim C8 at a concrete 3-leaf merge tree. -/
theorem claim_C8_witness :
    (preOrder exTree).length = 3 ∧ (preOrder exTree).Perm (List.range 3) :=
  (claim_C8 exTree 3).2 (by decide)

end HRPVerify
